import Mathlib

/-!
Shallow embedding of the Lox lexical scanner (src/lib.rs).

The Rust scanner walks a `Chars` iterator with a `VecDeque<char>` lookahead
buffer; `next` pops the buffer first, `peek`/`peek_next` pull characters from
the iterator into the buffer without consuming them.  Functionally the
iterator-plus-buffer pair is a single remaining-character stream whose head is
`peek` and whose second element is `peek_next`, so the state below holds one
`input : List Char` for it.  Machine `usize` counters are `Nat` (line numbers
only grow, no overflow is reachable), `String` is `List Char`, and the `f64`
payload of number tokens is modelled as an exact rational.  Rust panics
(`expect` on the iterator and on `str::parse::<f64>`) are modelled by a
distinguished `panics` outcome.
-/

/-- Mirror of `enum LoxError` (src/lib.rs:3-5): one variant carrying the
line and message of a lexical error. -/
inductive LoxError where
  | ParseError (line : Nat) (message : String)
deriving DecidableEq, Repr

/-- Mirror of `enum TokenType` (src/lib.rs:9-57).  `NUMBER` carries the parsed
numeric value, modelled as an exact rational instead of `f64`. -/
inductive TokenType where
  | LEFT_PAREN | RIGHT_PAREN | LEFT_BRACE | RIGHT_BRACE | COMMA | DOT
  | MINUS | PLUS | SEMICOLON | SLASH | STAR
  | BANG | BANG_EQUAL | EQUAL | EQUAL_EQUAL
  | GREATER | GREATER_EQUAL | LESS | LESS_EQUAL
  | IDENTIFIER | STRING | NUMBER (v : ℚ)
  | AND | CLASS | ELSE | FALSE | FUN | FOR | IF | NIL | OR | PRINT
  | RETURN | SUPER | THIS | TRUE | VAR | WHILE
  | EOF
deriving DecidableEq, Repr

/-- Mirror of `TokenType::to_keyword` (src/lib.rs:60-82): exact match of the
whole lexeme against the sixteen keyword spellings. -/
def TokenType.to_keyword (s : List Char) : Option TokenType :=
  if s = "and".toList then some .AND
  else if s = "class".toList then some .CLASS
  else if s = "else".toList then some .ELSE
  else if s = "false".toList then some .FALSE
  else if s = "fun".toList then some .FUN
  else if s = "for".toList then some .FOR
  else if s = "if".toList then some .IF
  else if s = "nil".toList then some .NIL
  else if s = "or".toList then some .OR
  else if s = "print".toList then some .PRINT
  else if s = "return".toList then some .RETURN
  else if s = "super".toList then some .SUPER
  else if s = "this".toList then some .THIS
  else if s = "true".toList then some .TRUE
  else if s = "var".toList then some .VAR
  else if s = "while".toList then some .WHILE
  else none

/-- Mirror of `struct Token` (src/lib.rs:86-90). -/
structure Token where
  token_type : TokenType
  lexeme : List Char
  line : Nat
deriving DecidableEq, Repr

/-- Mirror of `struct Scanner` (src/lib.rs:92-100): `input` is the combined
`chars`-iterator-plus-`buf` stream of characters not yet consumed. -/
structure Scanner where
  input : List Char
  tokens : List Token
  current_string : List Char
  line : Nat
deriving DecidableEq, Repr

/-- Result of one `scan_token` call: a new state, a `LoxError`, or a Rust
panic (a fired `expect`). -/
inductive StepResult where
  | ok (s : Scanner)
  | error (e : LoxError)
  | panics
deriving DecidableEq, Repr

/-- Result of `scan_tokens`: `Ok(tokens)`, `Err(LoxError)`, or a panic. -/
inductive ScanOutcome where
  | ok (tokens : List Token)
  | error (e : LoxError)
  | panics
deriving DecidableEq, Repr

/-- Mirror of `Scanner::new` (src/lib.rs:133-141): empty token list, empty
lexeme accumulator, line counter starting at 1. -/
def Scanner.new (source : List Char) : Scanner :=
  { input := source, tokens := [], current_string := [], line := 1 }

/-- Mirror of `Scanner::is_at_end` (src/lib.rs:159-161): true exactly when no
character remains in the combined stream. -/
def Scanner.is_at_end (s : Scanner) : Bool :=
  s.input.isEmpty

/-- Mirror of `Scanner::add_token` (src/lib.rs:313-320): push a token whose
lexeme is the accumulator taken whole (`mem::take` empties it) and whose line
is the current line. -/
def Scanner.add_token (s : Scanner) (t : TokenType) : Scanner :=
  { s with tokens := s.tokens ++ [⟨t, s.current_string, s.line⟩],
           current_string := [] }

/-- Mirror of `Scanner::match_char` (src/lib.rs:322-336): consume the next
character (appending it to the accumulator, as `advance` does) exactly when it
equals `expected`. -/
def Scanner.match_char (s : Scanner) (expected : Char) : Bool × Scanner :=
  match s.input with
  | [] => (false, s)
  | c :: rest =>
    if c = expected then
      (true, { s with input := rest, current_string := s.current_string ++ [c] })
    else (false, s)

/-- The character class `'0'..='9'` of the Rust match arms. -/
def isDigitChar (c : Char) : Bool :=
  '0' ≤ c && c ≤ '9'

/-- The character class `'a'..='z' | 'A'..='Z' | '_'` starting an identifier
(src/lib.rs:234). -/
def isAlphaChar (c : Char) : Bool :=
  ('a' ≤ c && c ≤ 'z') || ('A' ≤ c && c ≤ 'Z') || c = '_'

/-- The continuation class of `Scanner::identifier`
(src/lib.rs:249): letters, digits and underscore. -/
def isAlphaNumChar (c : Char) : Bool :=
  isAlphaChar c || isDigitChar c

/-- The loop of the line-comment arm (src/lib.rs:215-217): `advance` while the
next character exists and is not a newline.  Takes and returns the
(input, accumulator) pair. -/
def commentLoop : List Char → List Char → List Char × List Char
  | [], cs => ([], cs)
  | c :: rest, cs =>
    if c = '\n' then (c :: rest, cs) else commentLoop rest (cs ++ [c])

/-- The loop of `Scanner::identifier` (src/lib.rs:247-253): `advance` while
the next character is in the identifier continuation class. -/
def identLoop : List Char → List Char → List Char × List Char
  | [], cs => ([], cs)
  | c :: rest, cs =>
    if isAlphaNumChar c then identLoop rest (cs ++ [c]) else (c :: rest, cs)

/-- The digit-run loops of `Scanner::number` (src/lib.rs:263-265 and 277-279):
`advance` while the next character is a digit. -/
def digitLoop : List Char → List Char → List Char × List Char
  | [], cs => ([], cs)
  | c :: rest, cs =>
    if isDigitChar c then digitLoop rest (cs ++ [c]) else (c :: rest, cs)

/-- The loop of `Scanner::string` (src/lib.rs:287-292): while the next
character exists and is not `"`, bump the line counter on a newline, then
`advance`.  Takes and returns (input, accumulator, line). -/
def stringLoop : List Char → List Char → Nat → List Char × List Char × Nat
  | [], cs, line => ([], cs, line)
  | c :: rest, cs, line =>
    if c = '\"' then (c :: rest, cs, line)
    else stringLoop rest (cs ++ [c]) (if c = '\n' then line + 1 else line)

/-- Value of a digit run, most significant first. -/
def digitsToNat (ds : List Char) : Nat :=
  ds.foldl (fun a c => 10 * a + (c.toNat - Char.toNat '0')) 0

/-- Exponent part of the float grammar: an optional sign then a nonempty digit
run that must reach the end of the string. -/
def parseExponent (m : ℚ) (s : List Char) : Option ℚ :=
  let sgn : Int := if s.head? = some '-' then -1 else 1
  let s1 := if s.head? = some '-' ∨ s.head? = some '+' then s.drop 1 else s
  let ed := s1.takeWhile isDigitChar
  if ed = [] ∨ s1.dropWhile isDigitChar ≠ [] then none
  else some (m * (10 : ℚ) ^ (sgn * (digitsToNat ed : Int)))

/-- Model of Rust `str::parse::<f64>` (the `expect` at src/lib.rs:281), with
the value as an exact rational: an optional sign, then an integer digit run,
an optional point with a fractional digit run, and an optional exponent; at
least one digit must be present and no other character (in particular no
whitespace) may appear anywhere.  The `inf`/`infinity`/`nan` spellings Rust
also accepts have no rational value and are unreachable here: the scanner only
parses accumulator contents made of newlines, digits and an embedded point,
and those spellings would already fail the digit requirement below, exactly as
they are never produced.  Returns `none` where Rust returns `Err`. -/
def parseF64 (s : List Char) : Option ℚ :=
  let sgn : ℚ := if s.head? = some '-' then -1 else 1
  let s1 := if s.head? = some '-' ∨ s.head? = some '+' then s.drop 1 else s
  let ip := s1.takeWhile isDigitChar
  let s2 := s1.dropWhile isDigitChar
  let fracAndRest : List Char × List Char :=
    match s2 with
    | '.' :: r => (r.takeWhile isDigitChar, r.dropWhile isDigitChar)
    | _ => ([], s2)
  let fp := fracAndRest.1
  let s3 := if s2.head? = some '.' then fracAndRest.2 else s2
  if ip = [] ∧ fp = [] then none
  else
    let mant : ℚ :=
      sgn * ((digitsToNat ip : ℚ) + (digitsToNat fp : ℚ) / (10 : ℚ) ^ fp.length)
    match s3 with
    | [] => some mant
    | 'e' :: r => parseExponent mant r
    | 'E' :: r => parseExponent mant r
    | _ => none

/-- Mirror of `Scanner::identifier` (src/lib.rs:246-260): extend the lexeme
over the maximal alphanumeric run, then emit the keyword token when the whole
accumulator matches a keyword spelling, else a generic identifier token. -/
def Scanner.identifier (s : Scanner) : Scanner :=
  let p := identLoop s.input s.current_string
  let s1 : Scanner := { s with input := p.1, current_string := p.2 }
  match TokenType.to_keyword s1.current_string with
  | some t => s1.add_token t
  | none => s1.add_token .IDENTIFIER

/-- Mirror of `Scanner::number` (src/lib.rs:262-284): a maximal digit run,
then a point only when followed by a digit (lookahead of two), a second digit
run, and a parse of the whole accumulator — whose failure is the panic of the
`expect` at src/lib.rs:281.  Under the lookahead test the head character is
the point itself, so the `advance` consuming it appends `.` to the
accumulator and drops one character of input. -/
def Scanner.number (s : Scanner) : StepResult :=
  let p := digitLoop s.input s.current_string
  let s1 : Scanner := { s with input := p.1, current_string := p.2 }
  let s2 : Scanner :=
    if s1.input.head? = some '.' ∧ ((s1.input.drop 1).head?.any isDigitChar) = true then
      let q := digitLoop (s1.input.drop 1) (s1.current_string ++ ['.'])
      { s1 with input := q.1, current_string := q.2 }
    else s1
  match parseF64 s2.current_string with
  | some v => .ok (s2.add_token (.NUMBER v))
  | none => .panics

/-- Mirror of `Scanner::string` (src/lib.rs:286-305): scan to the closing
quote bumping the line counter on newlines; at end of input fail with
"Unterminated string."; otherwise consume the closing quote, trim one
character from each end of the accumulator, and emit a string token. -/
def Scanner.string (s : Scanner) : StepResult :=
  let p := stringLoop s.input s.current_string s.line
  let s1 : Scanner := { s with input := p.1, current_string := p.2.1, line := p.2.2 }
  match s1.input with
  | [] => .error (.ParseError s1.line "Unterminated string.")
  | c :: rest =>
    let s2 : Scanner :=
      { s1 with input := rest, current_string := s1.current_string ++ [c] }
    let s3 : Scanner :=
      { s2 with current_string := (s2.current_string.drop 1).dropLast }
    .ok (s3.add_token .STRING)

/-- Mirror of `Scanner::scan_token` (src/lib.rs:163-244).  The first `advance`
is the `expect("Reading past end")`: on empty input it panics.  Then the
dispatch on the consumed character, arm for arm.  Note the whitespace arm
(src/lib.rs:224-227) and the comment arm (src/lib.rs:219) clear the
accumulator while the newline arm (src/lib.rs:228-231) only bumps the line
counter and leaves the accumulator as it is. -/
def Scanner.scan_token (s0 : Scanner) : StepResult :=
  match s0.input with
  | [] => .panics
  | c :: rest =>
    let s : Scanner :=
      { s0 with input := rest, current_string := s0.current_string ++ [c] }
    if c = '(' then .ok (s.add_token .LEFT_PAREN)
    else if c = ')' then .ok (s.add_token .RIGHT_PAREN)
    else if c = '\x7b' then .ok (s.add_token .LEFT_BRACE)
    else if c = '\x7d' then .ok (s.add_token .RIGHT_BRACE)
    else if c = ',' then .ok (s.add_token .COMMA)
    else if c = '.' then .ok (s.add_token .DOT)
    else if c = '-' then .ok (s.add_token .MINUS)
    else if c = '+' then .ok (s.add_token .PLUS)
    else if c = ';' then .ok (s.add_token .SEMICOLON)
    else if c = '*' then .ok (s.add_token .STAR)
    else if c = '!' then
      let m := s.match_char '='
      .ok (m.2.add_token (if m.1 then .BANG_EQUAL else .BANG))
    else if c = '=' then
      let m := s.match_char '='
      .ok (m.2.add_token (if m.1 then .EQUAL_EQUAL else .EQUAL))
    else if c = '<' then
      let m := s.match_char '='
      .ok (m.2.add_token (if m.1 then .LESS_EQUAL else .LESS))
    else if c = '>' then
      let m := s.match_char '='
      .ok (m.2.add_token (if m.1 then .GREATER_EQUAL else .GREATER))
    else if c = '/' then
      let m := s.match_char '/'
      if m.1 then
        let p := commentLoop m.2.input m.2.current_string
        .ok { m.2 with input := p.1, current_string := [] }
      else .ok (m.2.add_token .SLASH)
    else if c = ' ' ∨ c = '\r' ∨ c = '\t' then
      .ok { s with current_string := [] }
    else if c = '\n' then
      .ok { s with line := s.line + 1 }
    else if c = '\"' then s.string
    else if isDigitChar c then s.number
    else if isAlphaChar c then .ok s.identifier
    else .error (.ParseError s.line "Unexpected character.")

/-- The loop of `Scanner::scan_tokens` (src/lib.rs:145-157), with fuel for
structural recursion: while not at end, `scan_token` (propagating its error or
panic); once the input is exhausted, append the end-of-input token with an
empty lexeme and the final line.  `scan_tokens` below always supplies more
fuel than the loop can use, so the fuel-exhaustion `panics` is never the
value returned (`scanLoopFuel_congr`). -/
def scanLoopFuel : Nat → Scanner → ScanOutcome
  | 0, _ => .panics
  | fuel + 1, s =>
    if s.input.isEmpty then
      .ok (s.tokens ++ [⟨.EOF, [], s.line⟩])
    else
      match s.scan_token with
      | .panics => .panics
      | .error e => .error e
      | .ok s1 => scanLoopFuel fuel s1

/-- Mirror of `Scanner::scan_tokens` (src/lib.rs:145-157) on a source text. -/
def scan_tokens (source : List Char) : ScanOutcome :=
  scanLoopFuel (source.length + 1) (Scanner.new source)

/-- The set of characters that begin some arm of the `scan_token` dispatch
other than its catch-all error arm (src/lib.rs:169-240). -/
def startsArm (c : Char) : Bool :=
  c = '(' || c = ')' || c = '\x7b' || c = '\x7d' || c = ',' || c = '.' ||
  c = '-' || c = '+' || c = ';' || c = '*' || c = '!' || c = '=' ||
  c = '<' || c = '>' || c = '/' || c = ' ' || c = '\r' || c = '\t' ||
  c = '\n' || c = '\"' || isDigitChar c || isAlphaChar c

/-! ### Helper lemmas about the scanning primitives -/

theorem match_char_cases (s : Scanner) (e : Char) :
    s.match_char e = (false, s) ∨
    ∃ rest, s.input = e :: rest ∧
      s.match_char e =
        (true, { s with input := rest, current_string := s.current_string ++ [e] }) := by
  obtain ⟨i, tok, cs, ln⟩ := s
  cases i with
  | nil => left; rfl
  | cons c rest =>
    by_cases hc : c = e
    · right
      exact ⟨rest, by rw [hc], by simp [Scanner.match_char, hc]⟩
    · left
      simp [Scanner.match_char, hc]

theorem commentLoop_spec (i cs : List Char) :
    commentLoop i cs =
      (i.dropWhile (fun c => !(c = '\n')), cs ++ i.takeWhile (fun c => !(c = '\n'))) := by
  induction i generalizing cs with
  | nil => simp [commentLoop]
  | cons c rest ih =>
    by_cases h : c = '\n'
    · simp [commentLoop, h, List.dropWhile_cons, List.takeWhile_cons]
    · simp [commentLoop, h, List.dropWhile_cons, List.takeWhile_cons, ih]

theorem count_newline_takeWhile (l : List Char) :
    (l.takeWhile (fun c => !(c = '\n'))).count '\n' = 0 := by
  rw [List.count_eq_zero]
  intro h
  have := List.mem_takeWhile_imp h
  simp at this

theorem identLoop_decomp (i cs : List Char) :
    ∃ pre, i = pre ++ (identLoop i cs).1 ∧ (identLoop i cs).2 = cs ++ pre ∧
      ∀ c ∈ pre, isAlphaNumChar c = true := by
  induction i generalizing cs with
  | nil => exact ⟨[], by simp [identLoop]⟩
  | cons c rest ih =>
    by_cases h : isAlphaNumChar c
    · obtain ⟨pre, h1, h2, h3⟩ := ih (cs ++ [c])
      refine ⟨c :: pre, ?_, ?_, ?_⟩
      · simpa [identLoop, h] using congrArg (c :: ·) h1
      · simpa [identLoop, h] using h2
      · intro x hx
        rcases List.mem_cons.mp hx with hx | hx
        · exact hx ▸ h
        · exact h3 x hx
    · exact ⟨[], by simp [identLoop, h]⟩

theorem digitLoop_decomp (i cs : List Char) :
    ∃ pre, i = pre ++ (digitLoop i cs).1 ∧ (digitLoop i cs).2 = cs ++ pre ∧
      ∀ c ∈ pre, isDigitChar c = true := by
  induction i generalizing cs with
  | nil => exact ⟨[], by simp [digitLoop]⟩
  | cons c rest ih =>
    by_cases h : isDigitChar c
    · obtain ⟨pre, h1, h2, h3⟩ := ih (cs ++ [c])
      refine ⟨c :: pre, ?_, ?_, ?_⟩
      · simpa [digitLoop, h] using congrArg (c :: ·) h1
      · simpa [digitLoop, h] using h2
      · intro x hx
        rcases List.mem_cons.mp hx with hx | hx
        · exact hx ▸ h
        · exact h3 x hx
    · exact ⟨[], by simp [digitLoop, h]⟩

theorem stringLoop_decomp (i cs : List Char) (line : Nat) :
    ∃ pre, i = pre ++ (stringLoop i cs line).1 ∧
      (stringLoop i cs line).2.1 = cs ++ pre ∧
      (stringLoop i cs line).2.2 = line + pre.count '\n' := by
  induction i generalizing cs line with
  | nil => exact ⟨[], by simp [stringLoop]⟩
  | cons c rest ih =>
    by_cases h : c = '\"'
    · exact ⟨[], by simp [stringLoop, h]⟩
    · obtain ⟨pre, h1, h2, h3⟩ := ih (cs ++ [c]) (if c = '\n' then line + 1 else line)
      refine ⟨c :: pre, ?_, ?_, ?_⟩
      · simpa [stringLoop, h] using congrArg (c :: ·) h1
      · simpa [stringLoop, h] using h2
      · rw [show (stringLoop (c :: rest) cs line) =
            stringLoop rest (cs ++ [c]) (if c = '\n' then line + 1 else line) by
              simp [stringLoop, h]]
        rw [h3, List.count_cons]
        by_cases hn : c = '\n' <;> simp [hn] <;> omega

theorem stringLoop_head (i cs : List Char) (line : Nat) :
    (stringLoop i cs line).1 = [] ∨
      ∃ rest, (stringLoop i cs line).1 = '\"' :: rest := by
  induction i generalizing cs line with
  | nil => left; simp [stringLoop]
  | cons c rest ih =>
    by_cases h : c = '\"'
    · right; exact ⟨rest, by simp [stringLoop, h]⟩
    · simpa [stringLoop, h] using ih (cs ++ [c]) (if c = '\n' then line + 1 else line)

theorem to_keyword_ne_eof {l : List Char} {t : TokenType}
    (h : TokenType.to_keyword l = some t) : t ≠ TokenType.EOF := by
  intro he
  subst he
  unfold TokenType.to_keyword at h
  iterate 16
    rcases ite_eq_iff.mp h with ⟨-, h2⟩ | ⟨-, h⟩ <;>
      try exact absurd (Option.some.inj h2) (by decide)
  exact Option.noConfusion h

theorem newline_not_alphanum {c : Char} (h : isAlphaNumChar c = true) : c ≠ '\n' := by
  intro he
  subst he
  simp [isAlphaNumChar, isAlphaChar, isDigitChar] at h

theorem newline_not_digit {c : Char} (h : isDigitChar c = true) : c ≠ '\n' := by
  intro he
  subst he
  simp [isDigitChar] at h

theorem string_ok_decomp {s s1 : Scanner} (h : s.string = .ok s1) :
    ∃ pre lex, pre ≠ [] ∧ s.input = pre ++ s1.input ∧
      s1.line = s.line + pre.count '\n' ∧
      s1.tokens = s.tokens ++ [⟨TokenType.STRING, lex, s1.line⟩] := by
  unfold Scanner.string at h
  obtain ⟨pre0, h1, h2, h3⟩ := stringLoop_decomp s.input s.current_string s.line
  have hh := stringLoop_head s.input s.current_string s.line
  rcases hres : stringLoop s.input s.current_string s.line with ⟨i1, cs1, ln1⟩
  rw [hres] at h1 h2 h3 hh h
  simp only [] at h1 h2 h3 hh h
  rcases hh with hh | ⟨rest, hh⟩ <;> subst hh
  · exact absurd h (by simp)
  · simp only [StepResult.ok.injEq] at h
    subst h
    refine ⟨pre0 ++ ['\"'], (List.drop 1 (cs1 ++ ['\"'])).dropLast, by simp, ?_, ?_, ?_⟩
    · simp [h1, Scanner.add_token]
    · simp [Scanner.add_token, h3, List.count_append]
    · simp [Scanner.add_token, h3]

theorem count_newline_digits {pre : List Char}
    (h : ∀ c ∈ pre, isDigitChar c = true) : pre.count '\n' = 0 := by
  rw [List.count_eq_zero]
  intro hm
  exact newline_not_digit (h _ hm) rfl

theorem number_ok_decomp {s s1 : Scanner} (h : s.number = .ok s1) :
    ∃ pre v lex, s.input = pre ++ s1.input ∧ s1.line = s.line ∧
      pre.count '\n' = 0 ∧
      s1.tokens = s.tokens ++ [⟨TokenType.NUMBER v, lex, s.line⟩] := by
  unfold Scanner.number at h
  obtain ⟨pre1, h1, h2, h3⟩ := digitLoop_decomp s.input s.current_string
  rcases hres : digitLoop s.input s.current_string with ⟨i1, cs1⟩
  rw [hres] at h1 h2 h
  simp only [] at h1 h2 h
  by_cases hfrac : i1.head? = some '.' ∧ ((i1.drop 1).head?.any isDigitChar) = true
  · rw [if_pos hfrac] at h
    obtain ⟨tl, htl⟩ : ∃ tl, i1 = '.' :: tl := by
      cases i1 with
      | nil => simp at hfrac
      | cons a b =>
        obtain ⟨ha, -⟩ := hfrac
        simp only [List.head?_cons, Option.some.injEq] at ha
        exact ⟨b, by rw [ha]⟩
    obtain ⟨pre2, g1, g2, g3⟩ := digitLoop_decomp (i1.drop 1) (cs1 ++ ['.'])
    rcases hres2 : digitLoop (i1.drop 1) (cs1 ++ ['.']) with ⟨i2, cs2⟩
    rw [hres2] at g1 g2 h
    simp only [] at g1 g2 h
    cases hp : parseF64 cs2 with
    | none => rw [hp] at h; exact absurd h (by simp)
    | some v =>
      rw [hp] at h
      simp only [StepResult.ok.injEq] at h
      subst h
      refine ⟨pre1 ++ ['.'] ++ pre2, v, cs2, ?_, ?_, ?_, ?_⟩
      · simp only [Scanner.add_token]
        rw [h1, htl]
        simp only [htl, List.drop_one, List.tail_cons] at g1
        rw [g1]
        simp
      · simp [Scanner.add_token]
      · simp only [List.count_append, count_newline_digits h3,
          count_newline_digits g3]
        decide
      · simp [Scanner.add_token]
  · rw [if_neg hfrac] at h
    cases hp : parseF64 cs1 with
    | none => rw [hp] at h; exact absurd h (by simp)
    | some v =>
      rw [hp] at h
      simp only [StepResult.ok.injEq] at h
      subst h
      exact ⟨pre1, v, cs1, by simpa [Scanner.add_token] using h1,
        by simp [Scanner.add_token], count_newline_digits h3,
        by simp [Scanner.add_token]⟩

theorem identifier_decomp (s : Scanner) :
    ∃ pre t lex,
      s.input = pre ++ s.identifier.input ∧
      s.identifier.line = s.line ∧
      pre.count '\n' = 0 ∧
      s.identifier.tokens = s.tokens ++ [⟨t, lex, s.line⟩] ∧
      t ≠ TokenType.EOF := by
  unfold Scanner.identifier
  obtain ⟨pre1, h1, h2, h3⟩ := identLoop_decomp s.input s.current_string
  rcases hres : identLoop s.input s.current_string with ⟨i1, cs1⟩
  rw [hres] at h1 h2
  simp only [] at h1 h2 ⊢
  have hcount : pre1.count '\n' = 0 := by
    rw [List.count_eq_zero]
    intro hm
    exact newline_not_alphanum (h3 _ hm) rfl
  cases hk : TokenType.to_keyword cs1 with
  | some t =>
    exact ⟨pre1, t, cs1, by simpa [Scanner.add_token] using h1,
      by simp [Scanner.add_token], hcount, by simp [Scanner.add_token],
      to_keyword_ne_eof hk⟩
  | none =>
    exact ⟨pre1, .IDENTIFIER, cs1, by simpa [Scanner.add_token] using h1,
      by simp [Scanner.add_token], hcount, by simp [Scanner.add_token],
      by decide⟩

theorem scan_token_ok_decomp {s s1 : Scanner} (h : s.scan_token = .ok s1) :
    ∃ pre new, pre ≠ [] ∧ s.input = pre ++ s1.input ∧
      s1.line = s.line + pre.count '\n' ∧
      s1.tokens = s.tokens ++ new ∧ new.length ≤ 1 ∧
      ∀ t ∈ new, s.line ≤ t.line ∧ t.line ≤ s1.line ∧ t.token_type ≠ TokenType.EOF := by
  obtain ⟨i, tok, cs, ln⟩ := s
  cases i with
  | nil =>
    unfold Scanner.scan_token at h
    exact absurd h (by simp)
  | cons c rest =>
    unfold Scanner.scan_token at h
    simp only [] at h
    rcases ite_eq_iff.mp h with ⟨hc, h2⟩ | ⟨-, h⟩
    · subst hc
      injection h2 with h2
      subst h2
      exact ⟨['('], [⟨.LEFT_PAREN, cs ++ ['('], ln⟩], by simp,
        by simp [Scanner.add_token], by simp [Scanner.add_token],
        by simp [Scanner.add_token], by simp,
        by intro t ht; simp at ht; subst ht; exact ⟨le_refl _, by simp [Scanner.add_token], by simp⟩⟩
    rcases ite_eq_iff.mp h with ⟨hc, h2⟩ | ⟨-, h⟩
    · subst hc
      injection h2 with h2
      subst h2
      exact ⟨[')'], [⟨.RIGHT_PAREN, cs ++ [')'], ln⟩], by simp,
        by simp [Scanner.add_token], by simp [Scanner.add_token],
        by simp [Scanner.add_token], by simp,
        by intro t ht; simp at ht; subst ht; exact ⟨le_refl _, by simp [Scanner.add_token], by simp⟩⟩
    rcases ite_eq_iff.mp h with ⟨hc, h2⟩ | ⟨-, h⟩
    · subst hc
      injection h2 with h2
      subst h2
      exact ⟨['\x7b'], [⟨.LEFT_BRACE, cs ++ ['\x7b'], ln⟩], by simp,
        by simp [Scanner.add_token], by simp [Scanner.add_token],
        by simp [Scanner.add_token], by simp,
        by intro t ht; simp at ht; subst ht; exact ⟨le_refl _, by simp [Scanner.add_token], by simp⟩⟩
    rcases ite_eq_iff.mp h with ⟨hc, h2⟩ | ⟨-, h⟩
    · subst hc
      injection h2 with h2
      subst h2
      exact ⟨['\x7d'], [⟨.RIGHT_BRACE, cs ++ ['\x7d'], ln⟩], by simp,
        by simp [Scanner.add_token], by simp [Scanner.add_token],
        by simp [Scanner.add_token], by simp,
        by intro t ht; simp at ht; subst ht; exact ⟨le_refl _, by simp [Scanner.add_token], by simp⟩⟩
    rcases ite_eq_iff.mp h with ⟨hc, h2⟩ | ⟨-, h⟩
    · subst hc
      injection h2 with h2
      subst h2
      exact ⟨[','], [⟨.COMMA, cs ++ [','], ln⟩], by simp,
        by simp [Scanner.add_token], by simp [Scanner.add_token],
        by simp [Scanner.add_token], by simp,
        by intro t ht; simp at ht; subst ht; exact ⟨le_refl _, by simp [Scanner.add_token], by simp⟩⟩
    rcases ite_eq_iff.mp h with ⟨hc, h2⟩ | ⟨-, h⟩
    · subst hc
      injection h2 with h2
      subst h2
      exact ⟨['.'], [⟨.DOT, cs ++ ['.'], ln⟩], by simp,
        by simp [Scanner.add_token], by simp [Scanner.add_token],
        by simp [Scanner.add_token], by simp,
        by intro t ht; simp at ht; subst ht; exact ⟨le_refl _, by simp [Scanner.add_token], by simp⟩⟩
    rcases ite_eq_iff.mp h with ⟨hc, h2⟩ | ⟨-, h⟩
    · subst hc
      injection h2 with h2
      subst h2
      exact ⟨['-'], [⟨.MINUS, cs ++ ['-'], ln⟩], by simp,
        by simp [Scanner.add_token], by simp [Scanner.add_token],
        by simp [Scanner.add_token], by simp,
        by intro t ht; simp at ht; subst ht; exact ⟨le_refl _, by simp [Scanner.add_token], by simp⟩⟩
    rcases ite_eq_iff.mp h with ⟨hc, h2⟩ | ⟨-, h⟩
    · subst hc
      injection h2 with h2
      subst h2
      exact ⟨['+'], [⟨.PLUS, cs ++ ['+'], ln⟩], by simp,
        by simp [Scanner.add_token], by simp [Scanner.add_token],
        by simp [Scanner.add_token], by simp,
        by intro t ht; simp at ht; subst ht; exact ⟨le_refl _, by simp [Scanner.add_token], by simp⟩⟩
    rcases ite_eq_iff.mp h with ⟨hc, h2⟩ | ⟨-, h⟩
    · subst hc
      injection h2 with h2
      subst h2
      exact ⟨[';'], [⟨.SEMICOLON, cs ++ [';'], ln⟩], by simp,
        by simp [Scanner.add_token], by simp [Scanner.add_token],
        by simp [Scanner.add_token], by simp,
        by intro t ht; simp at ht; subst ht; exact ⟨le_refl _, by simp [Scanner.add_token], by simp⟩⟩
    rcases ite_eq_iff.mp h with ⟨hc, h2⟩ | ⟨-, h⟩
    · subst hc
      injection h2 with h2
      subst h2
      exact ⟨['*'], [⟨.STAR, cs ++ ['*'], ln⟩], by simp,
        by simp [Scanner.add_token], by simp [Scanner.add_token],
        by simp [Scanner.add_token], by simp,
        by intro t ht; simp at ht; subst ht; exact ⟨le_refl _, by simp [Scanner.add_token], by simp⟩⟩
    rcases ite_eq_iff.mp h with ⟨hc, h2⟩ | ⟨-, h⟩
    · subst hc
      rcases match_char_cases ⟨rest, tok, cs ++ ['!'], ln⟩ '=' with hm | ⟨rest2, hmi, hm⟩
      · rw [hm] at h2
        simp only [] at h2
        injection h2 with h2
        subst h2
        exact ⟨['!'], [⟨.BANG, cs ++ ['!'], ln⟩], by simp,
          by simp [Scanner.add_token], by simp [Scanner.add_token],
          by simp [Scanner.add_token], by simp,
          by intro t ht; simp at ht; subst ht; exact ⟨le_refl _, by simp [Scanner.add_token], by simp⟩⟩
      · rw [hm] at h2
        simp only [] at h2 hmi
        injection h2 with h2
        subst h2
        subst hmi
        exact ⟨['!', '='], [⟨.BANG_EQUAL, (cs ++ ['!']) ++ ['='], ln⟩], by simp,
          by simp [Scanner.add_token], by simp [Scanner.add_token],
          by simp [Scanner.add_token], by simp,
          by intro t ht; simp at ht; subst ht; exact ⟨le_refl _, by simp [Scanner.add_token], by simp⟩⟩
    rcases ite_eq_iff.mp h with ⟨hc, h2⟩ | ⟨-, h⟩
    · subst hc
      rcases match_char_cases ⟨rest, tok, cs ++ ['='], ln⟩ '=' with hm | ⟨rest2, hmi, hm⟩
      · rw [hm] at h2
        simp only [] at h2
        injection h2 with h2
        subst h2
        exact ⟨['='], [⟨.EQUAL, cs ++ ['='], ln⟩], by simp,
          by simp [Scanner.add_token], by simp [Scanner.add_token],
          by simp [Scanner.add_token], by simp,
          by intro t ht; simp at ht; subst ht; exact ⟨le_refl _, by simp [Scanner.add_token], by simp⟩⟩
      · rw [hm] at h2
        simp only [] at h2 hmi
        injection h2 with h2
        subst h2
        subst hmi
        exact ⟨['=', '='], [⟨.EQUAL_EQUAL, (cs ++ ['=']) ++ ['='], ln⟩], by simp,
          by simp [Scanner.add_token], by simp [Scanner.add_token],
          by simp [Scanner.add_token], by simp,
          by intro t ht; simp at ht; subst ht; exact ⟨le_refl _, by simp [Scanner.add_token], by simp⟩⟩
    rcases ite_eq_iff.mp h with ⟨hc, h2⟩ | ⟨-, h⟩
    · subst hc
      rcases match_char_cases ⟨rest, tok, cs ++ ['<'], ln⟩ '=' with hm | ⟨rest2, hmi, hm⟩
      · rw [hm] at h2
        simp only [] at h2
        injection h2 with h2
        subst h2
        exact ⟨['<'], [⟨.LESS, cs ++ ['<'], ln⟩], by simp,
          by simp [Scanner.add_token], by simp [Scanner.add_token],
          by simp [Scanner.add_token], by simp,
          by intro t ht; simp at ht; subst ht; exact ⟨le_refl _, by simp [Scanner.add_token], by simp⟩⟩
      · rw [hm] at h2
        simp only [] at h2 hmi
        injection h2 with h2
        subst h2
        subst hmi
        exact ⟨['<', '='], [⟨.LESS_EQUAL, (cs ++ ['<']) ++ ['='], ln⟩], by simp,
          by simp [Scanner.add_token], by simp [Scanner.add_token],
          by simp [Scanner.add_token], by simp,
          by intro t ht; simp at ht; subst ht; exact ⟨le_refl _, by simp [Scanner.add_token], by simp⟩⟩
    rcases ite_eq_iff.mp h with ⟨hc, h2⟩ | ⟨-, h⟩
    · subst hc
      rcases match_char_cases ⟨rest, tok, cs ++ ['>'], ln⟩ '=' with hm | ⟨rest2, hmi, hm⟩
      · rw [hm] at h2
        simp only [] at h2
        injection h2 with h2
        subst h2
        exact ⟨['>'], [⟨.GREATER, cs ++ ['>'], ln⟩], by simp,
          by simp [Scanner.add_token], by simp [Scanner.add_token],
          by simp [Scanner.add_token], by simp,
          by intro t ht; simp at ht; subst ht; exact ⟨le_refl _, by simp [Scanner.add_token], by simp⟩⟩
      · rw [hm] at h2
        simp only [] at h2 hmi
        injection h2 with h2
        subst h2
        subst hmi
        exact ⟨['>', '='], [⟨.GREATER_EQUAL, (cs ++ ['>']) ++ ['='], ln⟩], by simp,
          by simp [Scanner.add_token], by simp [Scanner.add_token],
          by simp [Scanner.add_token], by simp,
          by intro t ht; simp at ht; subst ht; exact ⟨le_refl _, by simp [Scanner.add_token], by simp⟩⟩
    rcases ite_eq_iff.mp h with ⟨hc, h2⟩ | ⟨-, h⟩
    · subst hc
      rcases match_char_cases ⟨rest, tok, cs ++ ['/'], ln⟩ '/' with hm | ⟨rest2, hmi, hm⟩
      · rw [hm] at h2
        simp only [] at h2
        injection h2 with h2
        subst h2
        exact ⟨['/'], [⟨.SLASH, cs ++ ['/'], ln⟩], by simp,
          by simp [Scanner.add_token], by simp [Scanner.add_token],
          by simp [Scanner.add_token], by simp,
          by intro t ht; simp at ht; subst ht; exact ⟨le_refl _, by simp [Scanner.add_token], by simp⟩⟩
      · rw [hm] at h2
        simp only [] at h2 hmi
        rw [commentLoop_spec] at h2
        simp only [] at h2
        injection h2 with h2
        subst h2
        subst hmi
        refine ⟨'/' :: '/' :: rest2.takeWhile (fun c => !(c = '\n')), [], ?_, ?_, ?_, by simp, by simp, by simp⟩
        · simp
        · simp [List.takeWhile_append_dropWhile]
        · simp [List.count_cons, count_newline_takeWhile]
    rcases ite_eq_iff.mp h with ⟨hc, h2⟩ | ⟨-, h⟩
    · injection h2 with h2
      subst h2
      refine ⟨[c], [], by simp, by simp, ?_, by simp, by simp, by simp⟩
      rcases hc with hc | hc | hc <;> subst hc <;> simp [List.count_cons]
    rcases ite_eq_iff.mp h with ⟨hc, h2⟩ | ⟨-, h⟩
    · subst hc
      injection h2 with h2
      subst h2
      refine ⟨['\n'], [], by simp, by simp, ?_, by simp, by simp, by simp⟩
      simp [List.count_cons]
    rcases ite_eq_iff.mp h with ⟨hc, h2⟩ | ⟨-, h⟩
    · subst hc
      obtain ⟨pre0, lex, hne, hi, hl, ht⟩ := string_ok_decomp h2
      simp only [] at hi hl ht
      refine ⟨'\"' :: pre0, [⟨.STRING, lex, s1.line⟩], by simp, ?_, ?_, ?_, by simp, ?_⟩
      · rw [hi]
        simp
      · rw [hl]
        simp [List.count_cons]
      · exact ht
      · intro t htm
        simp at htm
        subst htm
        exact ⟨by simp only []; omega, le_refl _, by simp⟩
    rcases ite_eq_iff.mp h with ⟨hc, h2⟩ | ⟨-, h⟩
    · obtain ⟨pre0, v, lex, hi, hl, hcnt, ht⟩ := number_ok_decomp h2
      simp only [] at hi hl ht
      refine ⟨c :: pre0, [⟨.NUMBER v, lex, ln⟩], by simp, ?_, ?_, ?_, by simp, ?_⟩
      · rw [hi]
        simp
      · rw [hl]
        simp [List.count_cons, hcnt, newline_not_digit hc]
      · exact ht
      · intro t htm
        simp at htm
        subst htm
        exact ⟨le_refl _, by simp only []; omega, by simp⟩
    rcases ite_eq_iff.mp h with ⟨hc, h2⟩ | ⟨-, h⟩
    · injection h2 with h2
      obtain ⟨pre0, t0, lex, hi, hl, hcnt, ht, hne⟩ := identifier_decomp ⟨rest, tok, cs ++ [c], ln⟩
      rw [h2] at hi hl ht
      simp only [] at hi hl ht
      refine ⟨c :: pre0, [⟨t0, lex, ln⟩], by simp, ?_, ?_, ?_, by simp, ?_⟩
      · rw [hi]
        simp
      · rw [hl]
        have hcne : c ≠ '\n' := newline_not_alphanum (by simp [isAlphaNumChar, hc])
        simp [List.count_cons, hcnt, hcne]
      · exact ht
      · intro t htm
        simp at htm
        subst htm
        exact ⟨le_refl _, by rw [hl], hne⟩
    exact absurd h (by simp)

theorem scan_token_shrinks {s s1 : Scanner} (h : s.scan_token = .ok s1) :
    s1.input.length < s.input.length := by
  obtain ⟨pre, new, hpre, hi, -⟩ := scan_token_ok_decomp h
  rw [hi, List.length_append]
  cases pre with
  | nil => exact absurd rfl hpre
  | cons a l => simp

theorem scanLoopFuel_congr : ∀ (f1 f2 : Nat) (s : Scanner),
    s.input.length < f1 → s.input.length < f2 →
    scanLoopFuel f1 s = scanLoopFuel f2 s := by
  intro f1
  induction f1 with
  | zero => intro f2 s h1; exact absurd h1 (by omega)
  | succ n ih =>
    intro f2 s h1 h2
    cases f2 with
    | zero => exact absurd h2 (by omega)
    | succ m =>
      rw [scanLoopFuel, scanLoopFuel]
      by_cases hemp : s.input.isEmpty
      · rw [if_pos hemp, if_pos hemp]
      · rw [if_neg hemp, if_neg hemp]
        cases hst : s.scan_token with
        | panics => rfl
        | error e => rfl
        | ok s2 =>
          have hlt := scan_token_shrinks hst
          exact ih m s2 (by omega) (by omega)

theorem list_mem_of_head? {α : Type} {l : List α} {x : α} (h : x ∈ l.head?) :
    x ∈ l := by
  cases l <;> simp_all

theorem list_mem_of_getLast? {α : Type} {l : List α} {x : α} (h : x ∈ l.getLast?) :
    x ∈ l := by
  obtain ⟨hn, hx⟩ := List.mem_getLast?_eq_getLast h
  exact hx ▸ List.getLast_mem hn

theorem chain_le_append_of_bound {l1 l2 : List Nat} {b : Nat}
    (h1 : List.Chain' (· ≤ ·) l1) (h2 : List.Chain' (· ≤ ·) l2)
    (hb1 : ∀ x ∈ l1, x ≤ b) (hb2 : ∀ y ∈ l2, b ≤ y) :
    List.Chain' (· ≤ ·) (l1 ++ l2) :=
  h1.append h2 fun x hx y hy =>
    le_trans (hb1 x (list_mem_of_getLast? hx)) (hb2 y (list_mem_of_head? hy))

theorem scanLoop_ok_inv : ∀ (fuel : Nat) (s : Scanner) (toks : List Token),
    scanLoopFuel fuel s = .ok toks →
    (∀ t ∈ s.tokens, t.line ≤ s.line ∧ t.token_type ≠ TokenType.EOF) →
    List.Chain' (· ≤ ·) (s.tokens.map Token.line) →
    toks.getLast? = some ⟨TokenType.EOF, [], s.line + s.input.count '\n'⟩ ∧
    toks.countP (fun t => decide (t.token_type = TokenType.EOF)) = 1 ∧
    List.Chain' (· ≤ ·) (toks.map Token.line) := by
  intro fuel
  induction fuel with
  | zero =>
    intro s toks h
    exact absurd h (by simp [scanLoopFuel])
  | succ n ih =>
    intro s toks h hinv hchain
    rw [scanLoopFuel] at h
    by_cases hemp : s.input.isEmpty
    · rw [if_pos hemp] at h
      simp only [ScanOutcome.ok.injEq] at h
      subst h
      have hinp : s.input = [] := by simpa using hemp
      refine ⟨?_, ?_, ?_⟩
      · rw [hinp]
        simp
      · rw [List.countP_append]
        have h0 : s.tokens.countP (fun t => decide (t.token_type = TokenType.EOF)) = 0 := by
          rw [List.countP_eq_zero]
          intro a ha
          simpa using (hinv a ha).2
        simp [h0]
      · rw [List.map_append]
        refine chain_le_append_of_bound (b := s.line) hchain (by simp) ?_ ?_
        · intro x hx
          obtain ⟨t, htm, hteq⟩ := List.mem_map.mp hx
          exact hteq ▸ (hinv t htm).1
        · intro y hy
          simp at hy
          omega
    · rw [if_neg hemp] at h
      cases hst : s.scan_token with
      | panics => rw [hst] at h; exact absurd h (by simp)
      | error e => rw [hst] at h; exact absurd h (by simp)
      | ok s2 =>
        rw [hst] at h
        obtain ⟨pre, new, hpre, hi, hl, ht, hlen, hprop⟩ := scan_token_ok_decomp hst
        have hline_le : s.line ≤ s2.line := by omega
        have hinv2 : ∀ t ∈ s2.tokens, t.line ≤ s2.line ∧ t.token_type ≠ TokenType.EOF := by
          rw [ht]
          intro t htm
          rcases List.mem_append.mp htm with hm | hm
          · exact ⟨le_trans (hinv t hm).1 hline_le, (hinv t hm).2⟩
          · obtain ⟨-, hb, hc⟩ := hprop t hm
            exact ⟨hb, hc⟩
        have hchain2 : List.Chain' (· ≤ ·) (s2.tokens.map Token.line) := by
          rw [ht, List.map_append]
          refine chain_le_append_of_bound (b := s.line) hchain ?_ ?_ ?_
          · rcases new with - | ⟨a, l⟩
            · simp
            · cases l with
              | nil => simp
              | cons b l2 => simp at hlen
          · intro x hx
            obtain ⟨t, htm, hteq⟩ := List.mem_map.mp hx
            exact hteq ▸ (hinv t htm).1
          · intro y hy
            obtain ⟨t, htm, hteq⟩ := List.mem_map.mp hy
            exact hteq ▸ (hprop t htm).1
        have hcnt : s.line + s.input.count '\n' = s2.line + s2.input.count '\n' := by
          rw [hi, List.count_append]
          omega
        rw [hcnt]
        exact ih s2 toks h hinv2 hchain2

/-! ### Claim theorems -/

/-- C1: the claim says that on consuming a newline the scanner discards the
accumulated lexeme, so no later token's lexeme contains the preceding
newline.  The code's newline arm (src/lib.rs:228-231) only bumps the line
counter and keeps the accumulator: on source `"\n+"` the PLUS token is
emitted with lexeme `"\n+"`, which contains the newline. -/
theorem c1_newline_kept_in_lexeme :
    scan_tokens "\n+".toList =
      .ok [⟨.PLUS, ['\n', '+'], 2⟩, ⟨.EOF, [], 2⟩] ∧
    '\n' ∈ ['\n', '+'] := by
  exact ⟨by decide, by decide⟩

/-- C2: the claim says the scan never panics and every number parse succeeds.
On source `"\n1"` the newline stays in the accumulator, `parseF64 "\n1"`
fails (Rust: `"\n1".parse::<f64>()` is an `Err`), and the `expect` at
src/lib.rs:281 fires: the scan panics. -/
theorem c2_scan_panics_on_number_after_newline :
    scan_tokens "\n1".toList = .panics ∧ parseF64 ['\n', '1'] = none := by
  exact ⟨by decide, by decide⟩

/-- C3: the claim says any keyword spelling scanned as an identifier run
yields its keyword token regardless of surrounding context.  In isolation
`while` does yield WHILE, but after a newline the polluted accumulator
`"\nwhile"` misses the keyword table and the token is a generic
IDENTIFIER. -/
theorem c3_keyword_after_newline_is_identifier :
    scan_tokens "while".toList =
      .ok [⟨.WHILE, "while".toList, 1⟩, ⟨.EOF, [], 1⟩] ∧
    scan_tokens "\nwhile".toList =
      .ok [⟨.IDENTIFIER, "\nwhile".toList, 2⟩, ⟨.EOF, [], 2⟩] ∧
    TokenType.to_keyword "while".toList = some .WHILE := by
  exact ⟨by decide, by decide, by decide⟩

/-- C4: the spec's concrete example holds — `"hi\nthere"` yields one string
token with lexeme `hi\nthere` and the line counter advances by 1 — but the
universal claim fails: after a stray newline the accumulator at the opening
quote is `"\n"`, and trimming one character from each end of `"\n\"a\""`
leaves `"\"a"` (a quote and the content), not the content between the
quotes. -/
theorem c4_string_lexeme_trim :
    scan_tokens "\"hi\nthere\"".toList =
      .ok [⟨.STRING, "hi\nthere".toList, 2⟩, ⟨.EOF, [], 2⟩] ∧
    scan_tokens "\n\"a\"".toList =
      .ok [⟨.STRING, ['\"', 'a'], 2⟩, ⟨.EOF, [], 2⟩] := by
  exact ⟨by decide, by decide⟩

/-- C5: an unexpected character (one starting no dispatch arm) makes
`scan_token` fail with "Unexpected character." at the current line; the
scan loop returns the first error of a step unchanged (and, by the result
type, no tokens accompany it); concretely `@x` errors at line 1 without
scanning further, `"ab` errors with "Unterminated string." at line 1, and
`"a<newline>b` errors at line 2, the line at the point of detection. -/
theorem c5_first_error_no_tokens :
    (∀ (s0 : Scanner) (c : Char) (rest : List Char),
        s0.input = c :: rest → startsArm c = false →
        s0.scan_token = .error (.ParseError s0.line "Unexpected character.")) ∧
    (∀ (fuel : Nat) (s0 : Scanner) (e : LoxError),
        s0.scan_token = .error e →
        scanLoopFuel (fuel + 1) s0 = .error e) ∧
    scan_tokens "@x".toList = .error (.ParseError 1 "Unexpected character.") ∧
    scan_tokens "\"ab".toList = .error (.ParseError 1 "Unterminated string.") ∧
    scan_tokens "\"a\nb".toList = .error (.ParseError 2 "Unterminated string.") := by
  refine ⟨?_, ?_, by decide, by decide, by decide⟩
  · intro s0 c rest hin hsa
    obtain ⟨i, tok, cs, ln⟩ := s0
    simp only [] at hin
    subst hin
    simp only [startsArm, Bool.or_eq_false_iff, decide_eq_false_iff_not] at hsa
    obtain ⟨hsa, h22⟩ := hsa
    obtain ⟨hsa, h21⟩ := hsa
    obtain ⟨hsa, h20⟩ := hsa
    obtain ⟨hsa, h19⟩ := hsa
    obtain ⟨hsa, h18⟩ := hsa
    obtain ⟨hsa, h17⟩ := hsa
    obtain ⟨hsa, h16⟩ := hsa
    obtain ⟨hsa, h15⟩ := hsa
    obtain ⟨hsa, h14⟩ := hsa
    obtain ⟨hsa, h13⟩ := hsa
    obtain ⟨hsa, h12⟩ := hsa
    obtain ⟨hsa, h11⟩ := hsa
    obtain ⟨hsa, h10⟩ := hsa
    obtain ⟨hsa, h9⟩ := hsa
    obtain ⟨hsa, h8⟩ := hsa
    obtain ⟨hsa, h7⟩ := hsa
    obtain ⟨hsa, h6⟩ := hsa
    obtain ⟨hsa, h5⟩ := hsa
    obtain ⟨hsa, h4⟩ := hsa
    obtain ⟨hsa, h3⟩ := hsa
    obtain ⟨h1, h2⟩ := hsa
    have hws : ¬(c = ' ' ∨ c = '\r' ∨ c = '\t') := by
      rintro (hw | hw | hw)
      · exact h16 hw
      · exact h17 hw
      · exact h18 hw
    unfold Scanner.scan_token
    simp only []
    rw [if_neg h1, if_neg h2, if_neg h3, if_neg h4, if_neg h5, if_neg h6,
      if_neg h7, if_neg h8, if_neg h9, if_neg h10, if_neg h11, if_neg h12,
      if_neg h13, if_neg h14, if_neg h15, if_neg hws, if_neg h19, if_neg h20,
      h21, h22]
    simp
  · intro fuel s0 e hst
    have hne : ¬s0.input.isEmpty := by
      cases hin : s0.input with
      | nil =>
        obtain ⟨i, tok, cs, ln⟩ := s0
        simp only [] at hin
        subst hin
        unfold Scanner.scan_token at hst
        exact absurd hst (by simp)
      | cons a l => simp [hin]
    rw [scanLoopFuel, if_neg hne, hst]

/-- C6: on every successful scan the token list ends in the end-of-input
token — the only EOF-kind token — whose lexeme is empty and whose line is
the number of newline characters in the source plus one, and the line
numbers of the tokens are monotonically non-decreasing in sequence order. -/
theorem c6_success_shape :
    ∀ (source : List Char) (toks : List Token),
      scan_tokens source = .ok toks →
      toks.getLast? = some ⟨TokenType.EOF, [], source.count '\n' + 1⟩ ∧
      toks.countP (fun t => decide (t.token_type = TokenType.EOF)) = 1 ∧
      List.Chain' (· ≤ ·) (toks.map Token.line) := by
  intro source toks h
  have hmain := scanLoop_ok_inv (source.length + 1) (Scanner.new source) toks h
    (by simp [Scanner.new]) (by simp [Scanner.new])
  simpa [Scanner.new, Nat.add_comm] using hmain

/-- Witness for C6 at the concrete source `"a\nb"` (one newline): the end
token has line 2, EOF occurs once, lines are non-decreasing. -/
theorem c6_witness :
    scan_tokens "a\nb".toList =
      .ok [⟨.IDENTIFIER, ['a'], 1⟩, ⟨.IDENTIFIER, ['\n', 'b'], 2⟩, ⟨.EOF, [], 2⟩] ∧
    ([⟨.IDENTIFIER, ['a'], 1⟩, ⟨.IDENTIFIER, ['\n', 'b'], 2⟩,
        (⟨.EOF, [], 2⟩ : Token)] : List Token).getLast? =
      some ⟨TokenType.EOF, [], "a\nb".toList.count '\n' + 1⟩ ∧
    List.countP (fun t => decide (t.token_type = TokenType.EOF))
      [⟨.IDENTIFIER, ['a'], 1⟩, ⟨.IDENTIFIER, ['\n', 'b'], 2⟩,
        (⟨.EOF, [], 2⟩ : Token)] = 1 ∧
    List.Chain' (· ≤ ·) (List.map Token.line
      [⟨.IDENTIFIER, ['a'], 1⟩, ⟨.IDENTIFIER, ['\n', 'b'], 2⟩,
        (⟨.EOF, [], 2⟩ : Token)]) :=
  ⟨by decide, c6_success_shape "a\nb".toList _ (by decide)⟩

/-- C7: maximal munch.  For any continuation of the input, `!=`, `==`, `<=`
and `>=` each produce the single two-character operator token (never the
one-character token followed by `=`); `123.` produces the number token 123
and a separate DOT token (the trailing point is not consumed); `123.45`
produces one number token with value 123.45. -/
theorem c7_maximal_munch :
    (∀ rest : List Char, (Scanner.new ('!' :: '=' :: rest)).scan_token =
        .ok ⟨rest, [⟨.BANG_EQUAL, ['!', '='], 1⟩], [], 1⟩) ∧
    (∀ rest : List Char, (Scanner.new ('=' :: '=' :: rest)).scan_token =
        .ok ⟨rest, [⟨.EQUAL_EQUAL, ['=', '='], 1⟩], [], 1⟩) ∧
    (∀ rest : List Char, (Scanner.new ('<' :: '=' :: rest)).scan_token =
        .ok ⟨rest, [⟨.LESS_EQUAL, ['<', '='], 1⟩], [], 1⟩) ∧
    (∀ rest : List Char, (Scanner.new ('>' :: '=' :: rest)).scan_token =
        .ok ⟨rest, [⟨.GREATER_EQUAL, ['>', '='], 1⟩], [], 1⟩) ∧
    scan_tokens "123.".toList =
      .ok [⟨.NUMBER 123, "123".toList, 1⟩, ⟨.DOT, ['.'], 1⟩, ⟨.EOF, [], 1⟩] ∧
    scan_tokens "123.45".toList =
      .ok [⟨.NUMBER (123.45 : ℚ), "123.45".toList, 1⟩, ⟨.EOF, [], 1⟩] := by
  refine ⟨fun rest => rfl, fun rest => rfl, fun rest => rfl, fun rest => rfl, ?_, ?_⟩
  · have hshape : scan_tokens "123.".toList =
        .ok [⟨.NUMBER ((1 : ℚ) * ((digitsToNat ['1', '2', '3'] : ℚ) +
            (digitsToNat ([] : List Char) : ℚ) /
              (10 : ℚ) ^ (([] : List Char).length))), "123".toList, 1⟩,
          ⟨.DOT, ['.'], 1⟩, ⟨.EOF, [], 1⟩] := rfl
    have hval : (1 : ℚ) * ((digitsToNat ['1', '2', '3'] : ℚ) +
        (digitsToNat ([] : List Char) : ℚ) /
          (10 : ℚ) ^ (([] : List Char).length)) = 123 := by
      have e1 : digitsToNat ['1', '2', '3'] = 123 := by decide
      have e2 : digitsToNat ([] : List Char) = 0 := by decide
      rw [e1, e2]
      norm_num
    rw [hval] at hshape
    exact hshape
  · have hshape : scan_tokens "123.45".toList =
        .ok [⟨.NUMBER ((1 : ℚ) * ((digitsToNat ['1', '2', '3'] : ℚ) +
            (digitsToNat ['4', '5'] : ℚ) /
              (10 : ℚ) ^ ((['4', '5'] : List Char).length))), "123.45".toList, 1⟩,
          ⟨.EOF, [], 1⟩] := rfl
    have hval : (1 : ℚ) * ((digitsToNat ['1', '2', '3'] : ℚ) +
        (digitsToNat ['4', '5'] : ℚ) /
          (10 : ℚ) ^ ((['4', '5'] : List Char).length)) = (123.45 : ℚ) := by
      have e1 : digitsToNat ['1', '2', '3'] = 123 := by decide
      have e2 : digitsToNat ['4', '5'] = 45 := by decide
      have e3 : (['4', '5'] : List Char).length = 2 := by decide
      rw [e1, e2, e3]
      norm_num
    rw [hval] at hshape
    exact hshape

/-- Witness for C7: on input `!=x` the first step emits BANG_EQUAL. -/
theorem c7_witness :
    (Scanner.new ['!', '=', 'x']).scan_token =
      .ok ⟨['x'], [⟨.BANG_EQUAL, ['!', '='], 1⟩], [], 1⟩ :=
  c7_maximal_munch.1 ['x']

/-- C8: a line comment consumes characters up to but not including the next
newline (or end of input) and produces no token and no line change; an
unterminated comment at end of input is no error; a token on the line after
a comment-only line carries line number one greater than the comment's. -/
theorem c8_comment_to_eol :
    (∀ (s0 : Scanner) (rest : List Char),
        s0.input = '/' :: '/' :: rest →
        s0.scan_token = .ok { s0 with
          input := rest.dropWhile (fun c => !(c = '\n')),
          current_string := [] }) ∧
    scan_tokens "// abc".toList = .ok [⟨.EOF, [], 1⟩] ∧
    scan_tokens "// c\nx".toList =
      .ok [⟨.IDENTIFIER, ['\n', 'x'], 2⟩, ⟨.EOF, [], 2⟩] := by
  refine ⟨?_, by decide, by decide⟩
  intro s0 rest hin
  obtain ⟨i, tok, cs, ln⟩ := s0
  simp only [] at hin
  subst hin
  have h0 : Scanner.scan_token ⟨'/' :: '/' :: rest, tok, cs, ln⟩
      = .ok ⟨(commentLoop rest ((cs ++ ['/']) ++ ['/'])).1, tok, [], ln⟩ := rfl
  rw [h0, commentLoop_spec]

/-- Witness for C8: a comment step on the concrete state over `//a`. -/
theorem c8_witness :
    (Scanner.new ['/', '/', 'a']).scan_token =
      .ok { Scanner.new ['/', '/', 'a'] with
        input := ['a'].dropWhile (fun c => !(c = '\n')), current_string := [] } :=
  c8_comment_to_eol.1 (Scanner.new ['/', '/', 'a']) ['a'] rfl

/-- C9: the scan is deterministic — the outcome is a function of the source
text alone, and `Scanner::new` initialises the state from the source alone. -/
theorem c9_deterministic :
    (∀ src1 src2 : List Char, src1 = src2 → scan_tokens src1 = scan_tokens src2) ∧
    (∀ src : List Char, scan_tokens src = scanLoopFuel (src.length + 1) (Scanner.new src)) :=
  ⟨fun src1 src2 h => by rw [h], fun src => rfl⟩

/-- Witness for C9 at the source `"a"`. -/
theorem c9_witness : scan_tokens ['a'] = scan_tokens ['a'] :=
  c9_deterministic.1 ['a'] ['a'] rfl

/-- C10: the two-character source `""` scans successfully to a string token
with an empty lexeme followed by the end-of-input token; the string kind
differs from the EOF kind, so an empty lexeme does not identify EOF. -/
theorem c10_empty_string_literal :
    scan_tokens "\"\"".toList = .ok [⟨.STRING, [], 1⟩, ⟨.EOF, [], 1⟩] ∧
    TokenType.STRING ≠ TokenType.EOF :=
  ⟨by decide, by decide⟩

/-- Witness for C5: the unexpected-character step and the first-error
propagation at the concrete source `@`. -/
theorem c5_witness :
    (Scanner.new ['@']).scan_token =
      .error (.ParseError 1 "Unexpected character.") ∧
    scanLoopFuel 1 (Scanner.new ['@']) =
      .error (.ParseError 1 "Unexpected character.") := by
  have h1 := c5_first_error_no_tokens.1 (Scanner.new ['@']) '@' [] rfl (by decide)
  exact ⟨h1, c5_first_error_no_tokens.2.1 0 (Scanner.new ['@']) _ h1⟩
